import Mathlib

/-!
Verification development for the Check Mate fact-checking pipeline
(sentence segmentation, Sonar verification client, verdict resolution,
badge aggregation, and the background orchestrator).

The TypeScript sources are shallowly embedded: JavaScript strings become
`List Char` / `String`, JavaScript numbers become an explicit `JSNum` type
(rationals plus `NaN` and the infinities, so that `Number.isFinite` and the
partial order on doubles are modelled faithfully on the values the program
manipulates), asynchronous fallible calls become `Option`-valued oracles, and
the `p-limit` concurrency gate becomes an explicit transition system.
Host-environment pieces (the network, `JSON.parse`, `chrome.*` APIs) are out
of scope; the repository logic that consumes their results is embedded as
written in the source.
-/

/- # JavaScript primitives -/

/-- The ASCII part of the JavaScript regexp class `\s` (space, tab, newline,
carriage return, vertical tab, form feed).  All inputs considered here are
ASCII, so the Unicode spaces of `\s` are not modelled. -/
def isSpaceJS (c : Char) : Bool :=
  c == ' ' || c == '\t' || c == '\n' || c == '\r' || c == '\x0b' || c == '\x0c'

/-- The JavaScript regexp class `\w` (`[A-Za-z0-9_]`), used by the `\b`
word-boundary assertion. -/
def isWordChar (c : Char) : Bool :=
  (('a' ≤ c && c ≤ 'z') || ('A' ≤ c && c ≤ 'Z') || ('0' ≤ c && c ≤ '9') || c == '_')

/-- A JavaScript number: a finite value (modelled as a rational), `NaN`,
`Infinity` or `-Infinity`. -/
inductive JSNum where
  | nan : JSNum
  | posInf : JSNum
  | negInf : JSNum
  | fin : ℚ → JSNum
deriving DecidableEq

/-- The JavaScript `<` comparison on numbers: any comparison involving `NaN`
is false; the infinities compare as expected. -/
def jsLt : JSNum → JSNum → Bool
  | .nan, _ => false
  | _, .nan => false
  | .negInf, .negInf => false
  | .negInf, _ => true
  | _, .negInf => false
  | .posInf, _ => false
  | .fin _, .posInf => true
  | .fin a, .fin b => decide (a < b)

/-- `Math.max` on two numbers: `NaN` if either argument is `NaN`. -/
def jsMax (a b : JSNum) : JSNum :=
  match a, b with
  | .nan, _ => .nan
  | _, .nan => .nan
  | _, _ => if jsLt a b then b else a

/-- `Math.min` on two numbers: `NaN` if either argument is `NaN`. -/
def jsMin (a b : JSNum) : JSNum :=
  match a, b with
  | .nan, _ => .nan
  | _, .nan => .nan
  | _, _ => if jsLt a b then a else b

/-- `Number.isFinite`: true exactly on finite values. -/
def jsIsFinite : JSNum → Bool
  | .fin _ => true
  | _ => false

/-- `String.prototype.trim` on a character list (ASCII whitespace). -/
def trimJS (l : List Char) : List Char :=
  ((l.dropWhile isSpaceJS).reverse.dropWhile isSpaceJS).reverse

/-- `s.trim().toLowerCase()` on a Lean `String` (ASCII lowering, as
`Char.toLower` lowers exactly `A`–`Z`). -/
def jsTrimLower (s : String) : String :=
  ((trimJS s.data).map Char.toLower).asString

/- # Segmenter (`splitIntoClaims`, src/common/verdict.ts lines 245–376) -/

/-- The curated abbreviation set of `splitIntoClaims` (constant
`ABBREVIATIONS` in the source), verbatim. -/
def ABBREVIATIONS : List String :=
  ["mr.", "mrs.", "ms.", "dr.", "prof.", "sr.", "jr.",
   "u.s.", "u.k.", "e.u.",
   "st.", "vs.", "etc.", "i.e.", "e.g.",
   "jan.", "feb.", "mar.", "apr.", "jun.", "jul.", "aug.", "sept.", "oct.",
   "nov.", "dec."]

/-- Scan of the regexp `/(\b[^\s]+\.)\s*$/` inside the final whitespace-free
token of the buffer: the engine tries each start position left to right, and a
position matches when a `\b` word boundary holds there and at least one
non-space character remains before the terminal period.  `prev` is the
character preceding the current position (a space stands for start-of-token,
which has the same `\b` status). -/
def boundaryScan (prev : Char) : List Char → Option (List Char)
  | [] => none
  | c :: rest =>
    if (isWordChar prev != isWordChar c) && !rest.isEmpty then some (c :: rest)
    else boundaryScan c rest

/-- The capture group of `lowerBuffer.match(/(\b[^\s]+\.)\s*$/)` (source line
335).  Because `\s*$` only skips trailing whitespace and the group must end in
a literal `.`, a match exists exactly when, after stripping trailing
whitespace, the buffer ends in `.` and its final token contains a word
boundary strictly before that period; the group is the token suffix starting
at the leftmost such boundary. -/
def abbrevGroup (b : List Char) : Option (List Char) :=
  match b.reverse.dropWhile isSpaceJS with
  | '.' :: r =>
      boundaryScan ' ' ((('.' :: r).takeWhile (fun c => !isSpaceJS c)).reverse)
  | _ => none

/-- `abbrevMatch && ABBREVIATIONS.has(abbrevMatch[1])` (source line 336). -/
def abbrevGuardHit (lowerBuffer : List Char) : Bool :=
  match abbrevGroup lowerBuffer with
  | some g => ABBREVIATIONS.contains g.asString
  | none => false

/-- After the final digit run of the reversed buffer: the regexp
`/\d+\.\d+$/` still needs a `.` followed (in reading order, preceded here) by
at least one digit. -/
def revDecimalAfterDigits : List Char → Bool
  | [] => false
  | c :: rest =>
    if c.isDigit then revDecimalAfterDigits rest
    else c == '.' && (match rest with | d :: _ => d.isDigit | [] => false)

/-- Head of the reversed buffer must be a digit for `/\d+\.\d+$/` to match. -/
def revDecimalMatch : List Char → Bool
  | [] => false
  | c :: rest => c.isDigit && revDecimalAfterDigits rest

/-- `DECIMAL_NUMBER_BEFORE_PERIOD.test(buffer)` where the constant is the
regexp `/\d+\.\d+$/` (source lines 282 and 341): the buffer ends in one or
more digits, preceded by a period, preceded by at least one digit. -/
def decimalTest (b : List Char) : Bool :=
  revDecimalMatch b.reverse

/-- `text.replace(/\s+/g, " ")`: collapse every whitespace run to one space
(source line 316). -/
def collapseWS (l : List Char) : List Char :=
  l.foldr
    (fun c acc =>
      if isSpaceJS c then
        match acc with
        | ' ' :: _ => acc
        | _ => ' ' :: acc
      else c :: acc)
    []

/-- `MAX_CLAIMS` (source line 295). -/
def MAX_CLAIMS : Nat := 5

/-- The character-by-character segmentation loop of `splitIntoClaims` (source
lines 320–356).  `skipping` models the inner `while` loop that advances `i`
past whitespace after a sentence has been pushed; the `[]` case is the final
`if (buffer.trim().length > 0)` push of the trailing buffer. -/
def segRun (buffer : List Char) (acc : List (List Char)) (skipping : Bool) :
    List Char → List (List Char)
  | [] => if 0 < (trimJS buffer).length then acc ++ [trimJS buffer] else acc
  | c :: rest =>
    if skipping && isSpaceJS c then segRun buffer acc true rest
    else
      let buf := buffer ++ [c]
      if c == '.' || c == '!' || c == '?' then
        if abbrevGuardHit (buf.map Char.toLower) then segRun buf acc false rest
        else if decimalTest buf then segRun buf acc false rest
        else segRun [] (acc ++ [trimJS buf]) true rest
      else segRun buf acc false rest

/-- Stable descending comparison on `{idx, len}` records: the source sorts
with `(a, b) => b.len - a.len`. -/
def lenGe (a b : Nat × Nat) : Prop := b.2 ≤ a.2

/-- Ascending index comparison on `{idx, len}` records: the source restores
order with `(a, b) => a.idx - b.idx`. -/
def idxLe (a b : Nat × Nat) : Prop := a.1 ≤ b.1

instance : DecidableRel lenGe := fun a b => inferInstanceAs (Decidable (b.2 ≤ a.2))

instance : DecidableRel idxLe := fun a b => inferInstanceAs (Decidable (a.1 ≤ b.1))

instance : IsTotal (Nat × Nat) lenGe := ⟨fun a b => Nat.le_total b.2 a.2⟩

instance : IsTrans (Nat × Nat) lenGe := ⟨fun _ _ _ h h2 => Nat.le_trans h2 h⟩

instance : IsTotal (Nat × Nat) idxLe := ⟨fun a b => Nat.le_total a.1 b.1⟩

instance : IsTrans (Nat × Nat) idxLe := ⟨fun _ _ _ h h2 => Nat.le_trans h h2⟩

/-- Truncation step of `splitIntoClaims` (source lines 366–375): build
`{idx, len}` records, stable-sort descending by length, keep the first
`MAX_CLAIMS`, re-sort ascending by index and read the sentences back.
JavaScript `Array.prototype.sort` is stable, which `insertionSort` matches. -/
def keepLongest (filtered : List (List Char)) : List (List Char) :=
  let meta := filtered.enum.map (fun p => (p.1, p.2.length))
  let top := List.insertionSort idxLe ((List.insertionSort lenGe meta).take MAX_CLAIMS)
  top.map (fun m => filtered.getD m.1 [])

/-- The candidates of `splitIntoClaims` that survive the ≥ 10 length filter
(source lines 313–359): empty input short-circuits to `[]`, otherwise the
normalized text is segmented and short fragments are discarded. -/
def filteredCandidatesL (text : List Char) : List (List Char) :=
  if text = [] then []
  else
    let cleaned := trimJS (collapseWS text)
    if cleaned.length = 0 then []
    else (segRun [] [] false cleaned).filter (fun s => 10 ≤ s.length)

/-- `splitIntoClaims` on a character list (source lines 311–376): the
surviving candidates, truncated to the `MAX_CLAIMS` longest when there are
too many. -/
def splitIntoClaimsL (text : List Char) : List (List Char) :=
  if (filteredCandidatesL text).length ≤ MAX_CLAIMS then filteredCandidatesL text
  else keepLongest (filteredCandidatesL text)

/-- `splitIntoClaims` on Lean strings. -/
def splitIntoClaims (text : String) : List String :=
  (splitIntoClaimsL text.data).map List.asString

/-- The surviving candidate list on Lean strings. -/
def filteredCandidates (text : String) : List String :=
  (filteredCandidatesL text.data).map List.asString

/- # Verdict resolver (`getVerdict`, src/common/verdict.ts lines 160–201) -/

/-- A citation returned by the Sonar API (src/common/types.ts). -/
structure Citation where
  url : String
  title : String
deriving DecidableEq

/-- The `Pick<ClaimVerdict, "verdict" | "citations" | "confidence">` argument
of `getVerdict`.  The verdict arrives as a wire string (the code defends
against values outside the declared union), and the confidence as a
JavaScript number. -/
structure SonarPick where
  verdict : String
  citations : List Citation
  confidence : JSNum
deriving DecidableEq

/-- `getVerdict(raw, threshold)`: clamp the threshold to `[0, 1]`, normalize
the label, apply the hard-false override (label `"false"` with at least three
citations), then the confidence guard (`Number.isFinite(confidence) &&
confidence < clampedThreshold`), then map the label.  `Array.isArray` on the
citations is always true for a list and is therefore not represented. -/
def getVerdict (raw : SonarPick) (threshold : JSNum) : String :=
  let clampedThreshold := jsMin (jsMax threshold (.fin 0)) (.fin 1)
  let verdict := jsTrimLower raw.verdict
  if verdict = "false" ∧ 3 ≤ raw.citations.length then "false"
  else if jsIsFinite raw.confidence && jsLt raw.confidence clampedThreshold then "unclear"
  else if verdict = "true" then "true"
  else if verdict = "false" then "false"
  else "unclear"

/- # Badge aggregation (`getBadgeStatus`, src/background/badge.ts) -/

/-- The non-null badge states (`BadgeStatus` minus `null` in the source; the
`null` state is modelled by `Option`). -/
inductive BadgeStatus where
  | success : BadgeStatus
  | error : BadgeStatus
  | unclear : BadgeStatus
deriving DecidableEq

/-- `getBadgeStatus(verdicts)`: `null` on an empty list, `error` when any
verdict is `"false"`, `success` when every verdict is `"true"`, `unclear`
otherwise. -/
def getBadgeStatus (verdicts : List String) : Option BadgeStatus :=
  if verdicts.length = 0 then none
  else if verdicts.contains "false" then some .error
  else if verdicts.all (fun v => v == "true") then some .success
  else some .unclear

/- # Orchestrator (`handleCheckTweet`, src/background/index.ts lines 190–253) -/

/-- `ClaimVerdict` (src/common/types.ts). -/
structure ClaimVerdict where
  claim : String
  verdict : String
  explanation : String
  citations : List Citation
  confidence : JSNum
deriving DecidableEq

/-- The field selection performed when `handleCheckTweet` passes a
`callSonar` result to `getVerdict`. -/
def ClaimVerdict.pick (cv : ClaimVerdict) : SonarPick :=
  ⟨cv.verdict, cv.citations, cv.confidence⟩

/-- The synthetic result built in the `catch` branch of `handleCheckTweet`
(source lines 220–229) when `callSonar` fails for a claim: verdict
`"unclear"`, no citations, confidence `0`. -/
def failedClaimVerdict (claim : String) : ClaimVerdict :=
  { claim := claim
    verdict := "unclear"
    explanation := "Failed to fact-check this claim"
    citations := []
    confidence := .fin 0 }

/-- One arm of the `claims.map` in `handleCheckTweet` (source lines 212–231):
on a successful `callSonar` result the verdict field is replaced by
`getVerdict(sonarResult, threshold)`; on failure (`none`, standing for any
exception out of `callSonar`, including retry exhaustion) the synthetic
failure verdict is produced. -/
def processClaim (threshold : JSNum) (claim : String) (outcome : Option ClaimVerdict) :
    ClaimVerdict :=
  match outcome with
  | some sonarResult => { sonarResult with verdict := getVerdict sonarResult.pick threshold }
  | none => failedClaimVerdict claim

/-- The whole `Promise.all(claims.map(...))` of `handleCheckTweet`: the
oracle gives each claim position its `callSonar` outcome; `Promise.all`
preserves positional order. -/
def processClaims (threshold : JSNum) (claims : List String)
    (oracle : Nat → String → Option ClaimVerdict) : List ClaimVerdict :=
  claims.enum.map (fun p => processClaim threshold p.2 (oracle p.1 p.2))

/-- `AnalysisResult` (src/common/types.ts). -/
structure AnalysisResult where
  tweetId : String
  text : String
  claims : List String
  verdicts : List ClaimVerdict
deriving DecidableEq

/-- The claim-processing core of `handleCheckTweet` (source lines 205–239):
segment the text, fail the request (`none`) when no claims are found, and
otherwise assemble the stored `AnalysisResult`. -/
def handleCheckTweet (tweetId text : String) (threshold : JSNum)
    (oracle : Nat → String → Option ClaimVerdict) : Option AnalysisResult :=
  let claims := splitIntoClaims text
  if claims.length = 0 then none
  else some
    { tweetId := tweetId
      text := text
      claims := claims
      verdicts := processClaims threshold claims oracle }

/- # Concurrency gate (`callSonar`, src/common/claims.ts lines 199–263) -/

/-- `MAX_CONCURRENT_REQUESTS` (source line 80). -/
def MAX_CONCURRENT_REQUESTS : Nat := 3

/-- Semantics of `p-limit` gates.  Tasks are identified by naturals and
`gateOf` assigns each task its limiter.  A state is the list of in-flight
tasks; a task may start only while its own gate holds fewer than `cap`
in-flight tasks, and any in-flight task may finish. -/
inductive LimiterStep (gateOf : Nat → Nat) (cap : Nat) : List Nat → List Nat → Prop where
  | start (t : Nat) (s : List Nat) (hnew : t ∉ s)
      (hfree : (s.filter (fun u => gateOf u == gateOf t)).length < cap) :
      LimiterStep gateOf cap s (t :: s)
  | finish (t : Nat) (s : List Nat) (hmem : t ∈ s) :
      LimiterStep gateOf cap s (s.erase t)

/-- States reachable from the idle state (no call in flight). -/
def LimiterReachable (gateOf : Nat → Nat) (cap : Nat) (s : List Nat) : Prop :=
  Relation.ReflTransGen (LimiterStep gateOf cap) [] s

/-- The gate structure `callSonar` actually builds: `const limit =
pLimit(MAX_CONCURRENT_REQUESTS)` is executed inside the function body
(source line 212) and receives the single task of that invocation (line 244),
so in a population of concurrently pending invocations, task `i` is gated by
its own fresh gate `i`. -/
def callSonarGateOf : Nat → Nat := fun i => i

/-- The gate structure the specification describes: one process-wide gate
shared by every verification call. -/
def globalGateOf : Nat → Nat := fun _ => 0

/- # Sonar response validation (`parseResponse`, src/common/claims.ts lines 139–174) -/

/-- A JavaScript value, as produced by `JSON.parse` (plus `undefined` for
absent properties). -/
inductive JSValue where
  | undefined : JSValue
  | null : JSValue
  | bool : Bool → JSValue
  | num : JSNum → JSValue
  | str : String → JSValue
  | arr : List JSValue → JSValue
  | obj : List (String × JSValue) → JSValue

/-- JavaScript truthiness, as used by the `!parsed.verdict` and
`!parsed.explanation` checks. -/
def truthy : JSValue → Bool
  | .undefined => false
  | .null => false
  | .bool b => b
  | .num n => match n with
    | .nan => false
    | .fin q => decide (q ≠ 0)
    | _ => true
  | .str s => decide (s ≠ "")
  | .arr _ => true
  | .obj _ => true

/-- `Array.isArray`. -/
def isArrayV : JSValue → Bool
  | .arr _ => true
  | _ => false

/-- `typeof v === "number"`. -/
def typeofIsNumber : JSValue → Bool
  | .num _ => true
  | _ => false

/-- Property access `o[k]` on a parsed JSON value: `undefined` when the key
is absent or the value is not an object. -/
def getField (v : JSValue) (k : String) : JSValue :=
  match v with
  | .obj fields => ((fields.find? (fun f => f.1 == k)).map (fun f => f.2)).getD .undefined
  | _ => .undefined

/-- The field validation of `parseResponse` (source lines 160–168), applied
to the JSON-parsed message content: the payload is accepted exactly when
`parsed.verdict` and `parsed.explanation` are truthy, `parsed.citations` is
an array, and `parsed.confidence` has `typeof` number.  `JSON.parse` itself
is a host function and is not modelled; this takes its output. -/
def validateSonarFields (parsed : JSValue) : Bool :=
  truthy (getField parsed "verdict") &&
  truthy (getField parsed "explanation") &&
  isArrayV (getField parsed "citations") &&
  typeofIsNumber (getField parsed "confidence")

/-- The acceptance condition claimed by the specification, stated from its
words for comparison with `validateSonarFields`: a tri-state truth label, a
non-empty rationale string, a citation list, and a numeric confidence in
`[0, 1]`. -/
def specWellFormedPayload (p : JSValue) : Prop :=
  (getField p "verdict" = .str "true" ∨ getField p "verdict" = .str "false" ∨
    getField p "verdict" = .str "unclear") ∧
  (∃ s : String, getField p "explanation" = .str s ∧ s ≠ "") ∧
  (∃ es : List JSValue, getField p "citations" = .arr es) ∧
  (∃ q : ℚ, getField p "confidence" = .num (.fin q) ∧ 0 ≤ q ∧ q ≤ 1)

/-- A payload the code accepts although the specification's conditions
reject it: label `"banana"` and confidence `5`. -/
def badSonarPayload : JSValue :=
  .obj [("verdict", .str "banana"), ("explanation", .str "checked"),
        ("citations", .arr []), ("confidence", .num (.fin 5))]

/-- A payload satisfying the specification's acceptance conditions, used to
instantiate the validation theorems. -/
def goodSonarPayload : JSValue :=
  .obj [("verdict", .str "false"), ("explanation", .str "well sourced"),
        ("citations", .arr []), ("confidence", .num (.fin (9/10)))]

/-- A successful `callSonar` result used to instantiate the orchestrator
theorems. -/
def sampleVerdictOk : ClaimVerdict :=
  { claim := "The moon is made of cheese."
    verdict := "false"
    explanation := "It is rock."
    citations := [⟨"https://a", "A"⟩, ⟨"https://b", "B"⟩, ⟨"https://c", "C"⟩]
    confidence := .fin (9/10) }

/-- An oracle whose call for claim 0 exhausts its retries (fails) while every
other claim verifies. -/
def failingOracle : Nat → String → Option ClaimVerdict :=
  fun i _ => if i = 0 then none else some sampleVerdictOk

/-- An oracle agreeing with `failingOracle` everywhere except claim 0, where
it succeeds. -/
def healedOracle : Nat → String → Option ClaimVerdict :=
  fun i c => if i = 0 then some sampleVerdictOk else failingOracle i c

/- # Theorems -/

/-- With a single process-wide gate of capacity `cap` (the structure the
specification prescribes), no reachable state has more than `cap` calls in
flight: the `LimiterStep` semantics does enforce the bound when the gate is
actually shared. -/
theorem globalGate_bounds_in_flight (cap : Nat) (s : List Nat)
    (h : LimiterReachable globalGateOf cap s) : s.length ≤ cap := by
  induction h with
  | refl => simp
  | tail hab hbc ih =>
    rename_i b c
    cases hbc with
    | start t s2 hnew hfree =>
      have hu : b.filter (fun v => globalGateOf v == globalGateOf t) = b := by
        simp [globalGateOf]
      rw [hu] at hfree
      simpa using hfree
    | finish t s2 hmem =>
      exact le_trans (List.erase_sublist t b).length_le ih

/-- C1: refuted on the code.  `callSonar` constructs a fresh `pLimit(3)`
limiter inside each invocation and runs that invocation's single request
through it, so with five concurrently pending claims the state in which all
five oracle calls are simultaneously in flight is reachable — the bound is
per-call, not the process-wide gate of 3 the claim describes. -/
theorem callSonar_five_in_flight :
    LimiterReachable callSonarGateOf MAX_CONCURRENT_REQUESTS [4, 3, 2, 1, 0] ∧
    MAX_CONCURRENT_REQUESTS < ([4, 3, 2, 1, 0] : List Nat).length := by
  refine ⟨?_, by decide⟩
  have s0 : LimiterStep callSonarGateOf MAX_CONCURRENT_REQUESTS [] [0] :=
    .start 0 [] (by decide) (by decide)
  have s1 : LimiterStep callSonarGateOf MAX_CONCURRENT_REQUESTS [0] [1, 0] :=
    .start 1 [0] (by decide) (by decide)
  have s2 : LimiterStep callSonarGateOf MAX_CONCURRENT_REQUESTS [1, 0] [2, 1, 0] :=
    .start 2 [1, 0] (by decide) (by decide)
  have s3 : LimiterStep callSonarGateOf MAX_CONCURRENT_REQUESTS [2, 1, 0] [3, 2, 1, 0] :=
    .start 3 [2, 1, 0] (by decide) (by decide)
  have s4 : LimiterStep callSonarGateOf MAX_CONCURRENT_REQUESTS [3, 2, 1, 0] [4, 3, 2, 1, 0] :=
    .start 4 [3, 2, 1, 0] (by decide) (by decide)
  exact ((((Relation.ReflTransGen.refl.tail s0).tail s1).tail s2).tail s3).tail s4

/-- C3: refuted on the code (and on the repository's own unit test).  The
abbreviation guard only sees the token accumulated since the last accepted
boundary, so at the first period of `"U.S."` the matched group is `"u."`,
which is not in `ABBREVIATIONS`; the code splits there, and the fragments
`"The U."` and `"S."` are then discarded by the ≥ 10 length filter. -/
theorem splitIntoClaims_abbreviation_example :
    splitIntoClaims "The U.S. economy grew by 3%. Dr. Smith confirmed it." =
      ["economy grew by 3%.", "Dr. Smith confirmed it."] ∧
    (["economy grew by 3%.", "Dr. Smith confirmed it."] : List String) ≠
      ["The U.S. economy grew by 3%.", "Dr. Smith confirmed it."] :=
  ⟨by decide, by decide⟩

/-- C4: refuted on the code.  `DECIMAL_NUMBER_BEFORE_PERIOD` (`/\d+\.\d+$/`)
is tested against the buffer *including* the just-appended terminator, whose
last character is `.`, `!` or `?` and never a digit, so the guard can never
fire; in particular the interior period of `"3.14"` is treated as a sentence
boundary. -/
theorem splitIntoClaims_decimal_guard_dead :
    splitIntoClaims "Inflation rose to 3.14. Economists were surprised." =
      ["Inflation rose to 3.", "Economists were surprised."] ∧
    ∀ (b : List Char) (c : Char), c = '.' ∨ c = '!' ∨ c = '?' →
      decimalTest (b ++ [c]) = false := by
  refine ⟨by decide, ?_⟩
  have hd : ∀ (c : Char), c.isDigit = false → ∀ b : List Char,
      decimalTest (b ++ [c]) = false := by
    intro c hc b
    simp [decimalTest, List.reverse_append, revDecimalMatch, hc]
  rintro b c (rfl | rfl | rfl) <;> exact hd _ (by decide) b

/-- Witness for the universally quantified half of
`splitIntoClaims_decimal_guard_dead`: the guard does not fire on the exact
buffer `"3.14."`. -/
theorem splitIntoClaims_decimal_guard_dead_witness :
    decimalTest ("3.14".data ++ ['.']) = false :=
  splitIntoClaims_decimal_guard_dead.2 "3.14".data '.' (Or.inl rfl)

/-- C6: confirmed.  When the normalized label is `"false"` and at least three
citations are present, `getVerdict` returns `"false"` for every threshold and
every confidence value — the hard-false override precedes the confidence
guard. -/
theorem getVerdict_hard_false_override (raw : SonarPick) (threshold : JSNum)
    (hl : jsTrimLower raw.verdict = "false") (hc : 3 ≤ raw.citations.length) :
    getVerdict raw threshold = "false" := by
  simp [getVerdict, hl, hc]

/-- Witness: `resolve({label:"false", citations:[c1,c2,c3], confidence:0.2},
0.7) = "false"` — the hard-false override beats the confidence guard. -/
theorem getVerdict_hard_false_override_witness :
    getVerdict
      ⟨"false", [⟨"https://a", "A"⟩, ⟨"https://b", "B"⟩, ⟨"https://c", "C"⟩], .fin (2/10)⟩
      (.fin (7/10)) = "false" :=
  getVerdict_hard_false_override _ _ (by decide) (by decide)

/-- C7: confirmed.  For every judgment (confidence in `[0, 1]`, hence finite)
that does not trigger the hard-false override: confidence below the clamped
threshold yields `"unclear"`, and otherwise the normalized label is mapped
`true → true`, `false → false`, anything else → `unclear`. -/
theorem getVerdict_confidence_guard (v : String) (cites : List Citation) (q : ℚ)
    (threshold : JSNum)
    (hnf : ¬ (jsTrimLower v = "false" ∧ 3 ≤ cites.length))
    (h0 : 0 ≤ q) (h1 : q ≤ 1) :
    getVerdict ⟨v, cites, .fin q⟩ threshold =
      if jsLt (.fin q) (jsMin (jsMax threshold (.fin 0)) (.fin 1)) then "unclear"
      else if jsTrimLower v = "true" then "true"
      else if jsTrimLower v = "false" then "false"
      else "unclear" := by
  simp only [getVerdict]
  rw [if_neg hnf]
  simp [jsIsFinite]

/-- Clamping a threshold already in `[0, 1]` is the identity. -/
theorem jsClamp_of_unit (t : ℚ) (h0 : 0 ≤ t) (h1 : t ≤ 1) :
    jsMin (jsMax (.fin t) (.fin 0)) (.fin 1) = .fin t := by
  have hmax : jsMax (.fin t) (.fin 0) = .fin t := by
    show (if jsLt (.fin t) (.fin 0) then JSNum.fin 0 else .fin t) = .fin t
    have hlt : jsLt (.fin t) (.fin 0) = false := by
      show decide (t < 0) = false
      simp [not_lt.mpr h0]
    rw [hlt]
    rfl
  rw [hmax]
  show (if jsLt (.fin t) (.fin 1) then JSNum.fin t else .fin 1) = .fin t
  rcases lt_or_eq_of_le h1 with h | h
  · have hlt : jsLt (.fin t) (.fin 1) = true := by
      show decide (t < 1) = true
      simp [h]
    rw [hlt]
    rfl
  · subst h
    rfl

/-- Witness: `resolve({label:"true", citations:[], confidence:0.42}, 0.7) =
"unclear"` (confidence guard) and `resolve({label:"bogus", citations:[],
confidence:0.9}, 0.7) = "unclear"` (unknown label fallback). -/
theorem getVerdict_confidence_guard_witness :
    getVerdict ⟨"true", [], .fin (42/100)⟩ (.fin (7/10)) = "unclear" ∧
    getVerdict ⟨"bogus", [], .fin (9/10)⟩ (.fin (7/10)) = "unclear" := by
  have hcl := jsClamp_of_unit (7/10) (by norm_num) (by norm_num)
  constructor
  · have h := getVerdict_confidence_guard "true" [] (42/100) (.fin (7/10))
      (by decide) (by norm_num) (by norm_num)
    rw [h, hcl]
    have hlt : jsLt (.fin (42/100)) (.fin (7/10)) = true := by
      show decide ((42:ℚ)/100 < 7/10) = true
      norm_num
    rw [hlt]
    rfl
  · have h := getVerdict_confidence_guard "bogus" [] (9/10) (.fin (7/10))
      (by decide) (by norm_num) (by norm_num)
    rw [h, hcl]
    have hlt : jsLt (.fin (9/10)) (.fin (7/10)) = false := by
      show decide ((9:ℚ)/10 < 7/10) = false
      norm_num
    rw [hlt]
    decide

/-- C10: confirmed.  With a non-finite confidence (`NaN` or `±Infinity`) the
confidence guard `Number.isFinite(confidence) && confidence <
clampedThreshold` is skipped for every threshold, and the normalized label is
mapped directly (the hard-false override, when it fires, agrees with that
mapping). -/
theorem getVerdict_nonfinite_confidence (v : String) (cites : List Citation)
    (c threshold : JSNum) (h : jsIsFinite c = false) :
    getVerdict ⟨v, cites, c⟩ threshold =
      if jsTrimLower v = "true" then "true"
      else if jsTrimLower v = "false" then "false"
      else "unclear" := by
  by_cases hf : jsTrimLower v = "false" ∧ 3 ≤ cites.length
  · simp [getVerdict, hf, hf.1]
  · simp [getVerdict, hf, h]

/-- Witness: `{verdict:"true", citations:[], confidence:NaN}` resolves to
`"true"` even under the maximum (clamped) threshold `1`. -/
theorem getVerdict_nonfinite_confidence_witness :
    getVerdict ⟨"true", [], .nan⟩ (.fin 1) = "true" := by
  rw [getVerdict_nonfinite_confidence "true" [] .nan (.fin 1) rfl]
  decide

/-- C8: confirmed.  The aggregate badge status is `error` (the spec's
`negative`) iff some verdict is `"false"`, `success` (`positive`) iff the
list is non-empty and all-`"true"`, `none` (`null`, the spec's `none`) iff
the list is empty, and `unclear` (`neutral`) otherwise; a single `"false"`
wins over everything. -/
theorem getBadgeStatus_cases (vs : List String) :
    (getBadgeStatus vs = some .error ↔ "false" ∈ vs) ∧
    (getBadgeStatus vs = some .success ↔ (vs ≠ [] ∧ ∀ v ∈ vs, v = "true")) ∧
    (getBadgeStatus vs = none ↔ vs = []) ∧
    (getBadgeStatus vs = some .unclear ↔
      (vs ≠ [] ∧ "false" ∉ vs ∧ ¬ (∀ v ∈ vs, v = "true"))) := by
  unfold getBadgeStatus
  split_ifs with h1 h2 h3
  · have he : vs = [] := List.length_eq_zero.mp h1
    subst he
    simp
  · have hf : "false" ∈ vs := by simpa using h2
    have hne : vs ≠ [] := by
      intro he
      subst he
      simp at hf
    have hnotall : ¬ (∀ v ∈ vs, v = "true") := fun hall => absurd (hall _ hf) (by decide)
    simp [hf, hne, hnotall]
  · have hall : ∀ v ∈ vs, v = "true" := by
      intro v hv
      simpa using List.all_eq_true.mp h3 v hv
    have hne : vs ≠ [] := by simpa [List.length_eq_zero] using h1
    have hf : "false" ∉ vs := fun hmem => absurd (hall _ hmem) (by decide)
    simp [iff_true_intro hall, hne, hf]
  · have hne : vs ≠ [] := by simpa [List.length_eq_zero] using h1
    have hf : "false" ∉ vs := by simpa using h2
    have hnotall : ¬ (∀ v ∈ vs, v = "true") := by
      intro hall
      exact h3 (List.all_eq_true.mpr (fun v hv => by simpa using hall v hv))
    simp [hne, hf, hnotall]

/-- C9 counterexample: the payload `{verdict:"banana", explanation:"checked",
citations:[], confidence:5}` passes `parseResponse`'s field validation even
though its label is not tri-state and its confidence lies outside `[0, 1]` —
the claimed acceptance conditions do not hold of the code. -/
theorem validateSonarFields_accepts_invalid :
    validateSonarFields badSonarPayload = true ∧ ¬ specWellFormedPayload badSonarPayload := by
  refine ⟨by decide, ?_⟩
  rintro ⟨hv, -, -, -⟩
  have hgv : getField badSonarPayload "verdict" = .str "banana" := rfl
  rw [hgv] at hv
  rcases hv with hv | hv | hv <;> simp at hv

/-- C9 amended: every payload satisfying the specification's conditions is
accepted, but the implemented checks are weaker — acceptance holds exactly
when the verdict and explanation fields are truthy, the citations field is an
array, and the confidence field has JavaScript type number; neither the
tri-state shape of the label nor the `[0, 1]` confidence range is checked. -/
theorem validateSonarFields_characterization (p : JSValue) :
    (specWellFormedPayload p → validateSonarFields p = true) ∧
    (validateSonarFields p = true ↔
      (truthy (getField p "verdict") = true ∧ truthy (getField p "explanation") = true ∧
       isArrayV (getField p "citations") = true ∧
       typeofIsNumber (getField p "confidence") = true)) := by
  constructor
  · rintro ⟨hv, ⟨s, hs, hsne⟩, ⟨es, hes⟩, ⟨q, hq, -, -⟩⟩
    unfold validateSonarFields
    rcases hv with hv | hv | hv <;>
      rw [hv, hs, hes, hq] <;> simp [truthy, isArrayV, typeofIsNumber, hsne]
  · unfold validateSonarFields
    simp [Bool.and_eq_true, and_assoc]

/-- Witness: the specification-shaped payload with label `"false"`, rationale
`"well sourced"`, empty citation list and confidence `0.9` is accepted. -/
theorem validateSonarFields_characterization_witness :
    validateSonarFields goodSonarPayload = true :=
  (validateSonarFields_characterization goodSonarPayload).1
    ⟨Or.inr (Or.inl rfl), ⟨"well sourced", rfl, by decide⟩, ⟨[], rfl⟩,
      ⟨9/10, rfl, by norm_num, by norm_num⟩⟩

/-- The processed verdict list is positionally aligned with the claim list:
entry `j` is the outcome of claim `j` alone. -/
theorem processClaims_get? (threshold : JSNum) (claims : List String)
    (oracle : Nat → String → Option ClaimVerdict) (j : Nat) :
    (processClaims threshold claims oracle).get? j =
      (claims.get? j).map (fun c => processClaim threshold c (oracle j c)) := by
  simp only [processClaims, List.get?_map, List.get?_enum]
  cases claims.get? j <;> rfl

/-- `processClaims` yields one verdict per claim. -/
theorem processClaims_length (threshold : JSNum) (claims : List String)
    (oracle : Nat → String → Option ClaimVerdict) :
    (processClaims threshold claims oracle).length = claims.length := by
  simp [processClaims]

/-- C2: confirmed.  When the oracle call for claim `i` fails (retries
exhausted), `handleCheckTweet` still produces an `AnalysisResult`; the claim
list is intact, there is one verdict per claim, position `i` carries the
synthetic `unclear` judgment with zero citations and confidence `0`, and
every sibling verdict is exactly what any oracle agreeing outside `i` would
have produced — the failure neither removes nor alters sibling results. -/
theorem handleCheckTweet_failed_claim_isolated
    (tweetId text : String) (threshold : JSNum)
    (oracle oracle2 : Nat → String → Option ClaimVerdict) (i : Nat)
    (hi : i < (splitIntoClaims text).length)
    (hfail : oracle i ((splitIntoClaims text).getD i "") = none)
    (hagree : ∀ j, j ≠ i → oracle2 j = oracle j) :
    ∃ result, handleCheckTweet tweetId text threshold oracle = some result ∧
      result.claims = splitIntoClaims text ∧
      result.verdicts.length = result.claims.length ∧
      result.verdicts.get? i =
        some (failedClaimVerdict ((splitIntoClaims text).getD i "")) ∧
      ∀ result2, handleCheckTweet tweetId text threshold oracle2 = some result2 →
        ∀ j, j ≠ i → result2.verdicts.get? j = result.verdicts.get? j := by
  have hne : ¬ (splitIntoClaims text).length = 0 := by omega
  have hmain : handleCheckTweet tweetId text threshold oracle =
      some (AnalysisResult.mk tweetId text (splitIntoClaims text)
        (processClaims threshold (splitIntoClaims text) oracle)) := by
    simp [handleCheckTweet, hne]
  refine ⟨_, hmain, rfl, processClaims_length _ _ _, ?_, ?_⟩
  · have hget : (splitIntoClaims text).get? i =
        some ((splitIntoClaims text).getD i "") := by
      rw [List.getD_eq_get?, List.get?_eq_get hi]
      rfl
    show (processClaims threshold (splitIntoClaims text) oracle).get? i = _
    rw [processClaims_get?, hget]
    simp only [List.getD_eq_getElem?_getD] at hfail
    simp [processClaim, hfail]
  · intro result2 hr2 j hj
    have hmain2 : handleCheckTweet tweetId text threshold oracle2 =
        some (AnalysisResult.mk tweetId text (splitIntoClaims text)
          (processClaims threshold (splitIntoClaims text) oracle2)) := by
      simp [handleCheckTweet, hne]
    rw [hmain2] at hr2
    cases hr2
    show (processClaims threshold (splitIntoClaims text) oracle2).get? j = _
    rw [processClaims_get?, processClaims_get?, hagree j hj]

/-- C2 witness: on `"The Earth is flat. The moon is made of cheese."` with an
oracle failing on claim 0, the analysis still succeeds, claim 0 carries the
synthetic failure verdict, and healing the oracle at claim 0 leaves every
sibling entry unchanged. -/
theorem handleCheckTweet_failed_claim_isolated_witness :
    ∃ result, handleCheckTweet "123" "The Earth is flat. The moon is made of cheese."
        (.fin (7/10)) failingOracle = some result ∧
      result.claims = splitIntoClaims "The Earth is flat. The moon is made of cheese." ∧
      result.verdicts.length = result.claims.length ∧
      result.verdicts.get? 0 = some (failedClaimVerdict
        ((splitIntoClaims "The Earth is flat. The moon is made of cheese.").getD 0 "")) ∧
      ∀ result2, handleCheckTweet "123" "The Earth is flat. The moon is made of cheese."
          (.fin (7/10)) healedOracle = some result2 →
        ∀ j, j ≠ 0 → result2.verdicts.get? j = result.verdicts.get? j :=
  handleCheckTweet_failed_claim_isolated "123" _ (.fin (7/10)) failingOracle healedOracle 0
    (by decide) rfl (fun j hj => by funext c; simp [healedOracle, hj])

/-- Reading strictly increasing in-range positions out of a list yields a
sublist of it. -/
theorem map_getD_sublist {α : Type} (d : α) :
    ∀ (l : List α) (is : List Nat), is.Pairwise (· < ·) →
      (∀ i ∈ is, i < l.length) → (is.map (fun i => l.getD i d)).Sublist l := by
  intro l
  induction l with
  | nil =>
    intro is hp hb
    cases is with
    | nil => simp
    | cons i is2 => exact absurd (hb i (by simp)) (by simp)
  | cons x l2 ih =>
    intro is hp hb
    cases is with
    | nil => simp
    | cons i is2 =>
      have hpi : ∀ j ∈ is2, i < j := (List.pairwise_cons.mp hp).1
      have hps : is2.Pairwise (· < ·) := (List.pairwise_cons.mp hp).2
      cases i with
      | zero =>
        have htail : is2.map (fun j => (x :: l2).getD j d) =
            (is2.map (fun j => j - 1)).map (fun j => l2.getD j d) := by
          rw [List.map_map]
          apply List.map_congr_left
          intro j hj
          have h1 : 0 < j := hpi j hj
          obtain ⟨k, rfl⟩ : ∃ k, j = k + 1 := ⟨j - 1, by omega⟩
          simp
        have hp2 : (is2.map (fun j => j - 1)).Pairwise (· < ·) := by
          rw [List.pairwise_map]
          exact hps.imp_of_mem (fun ha hb2 hlt => by
            have h1 := hpi _ ha
            have h2 := hpi _ hb2
            omega)
        have hb2 : ∀ j ∈ is2.map (fun j => j - 1), j < l2.length := by
          intro j hj
          rcases List.mem_map.mp hj with ⟨j0, hj0, rfl⟩
          have hj1 := hb j0 (by simp [hj0])
          have hj2 := hpi j0 hj0
          simp at hj1
          omega
        have hsub := ih (is2.map (fun j => j - 1)) hp2 hb2
        simp only [List.map_cons, List.getD_cons_zero, htail]
        exact List.Sublist.cons₂ x hsub
      | succ k =>
        have hall : ((k + 1) :: is2).map (fun j => (x :: l2).getD j d) =
            (((k + 1) :: is2).map (fun j => j - 1)).map (fun j => l2.getD j d) := by
          rw [List.map_map]
          apply List.map_congr_left
          intro j hj
          have h1 : 1 ≤ j := by
            rcases List.mem_cons.mp hj with rfl | hj2
            · omega
            · have := hpi _ hj2
              omega
          obtain ⟨k2, rfl⟩ : ∃ k2, j = k2 + 1 := ⟨j - 1, by omega⟩
          simp
        have hp2 : (((k + 1) :: is2).map (fun j => j - 1)).Pairwise (· < ·) := by
          rw [List.pairwise_map]
          apply hp.imp_of_mem
          intro a b ha hb2 hlt
          have h1 : 1 ≤ a := by
            rcases List.mem_cons.mp ha with rfl | ha2
            · omega
            · have := hpi _ ha2
              omega
          omega
        have hb2 : ∀ j ∈ ((k + 1) :: is2).map (fun j => j - 1), j < l2.length := by
          intro j hj
          rcases List.mem_map.mp hj with ⟨j0, hj0, rfl⟩
          have hj1 := hb j0 hj0
          have hj2 : 1 ≤ j0 := by
            rcases List.mem_cons.mp hj0 with rfl | hj3
            · omega
            · have := hpi _ hj3
              omega
          simp at hj1
          omega
        rw [hall]
        exact List.Sublist.cons x (ih _ hp2 hb2)

/-- Shape of the `{idx, len}` records `keepLongest` builds: the index is in
range and tagged with the length of the sentence it points at. -/
theorem meta_mem_shape {filtered : List (List Char)} {m : Nat × Nat}
    (hm : m ∈ filtered.enum.map (fun p => (p.1, p.2.length))) :
    m.1 < filtered.length ∧ filtered.getD m.1 [] ∈ filtered ∧
      (filtered.getD m.1 []).length = m.2 := by
  rcases List.mem_map.mp hm with ⟨p, hp, rfl⟩
  have hget : filtered.get? p.1 = some p.2 := List.mem_enum_iff_get?.mp hp
  have hlt : p.1 < filtered.length := by
    have := List.get?_eq_some.mp hget
    exact this.1
  have hgd : filtered.getD p.1 [] = p.2 := by
    rw [List.getD_eq_get?, hget]
    rfl
  refine ⟨hlt, ?_, ?_⟩
  · show filtered.getD p.1 [] ∈ filtered
    rw [hgd]
    exact List.get?_mem hget
  · show (filtered.getD p.1 []).length = p.2.length
    rw [hgd]

/-- Every member of the candidate list appears in the records with its own
index and length. -/
theorem mem_to_meta {filtered : List (List Char)} {y : List Char} (hy : y ∈ filtered) :
    ∃ j, filtered.get? j = some y ∧
      (j, y.length) ∈ filtered.enum.map (fun p => (p.1, p.2.length)) := by
  rcases List.mem_iff_get?.mp hy with ⟨j, hj⟩
  exact ⟨j, hj, List.mem_map.mpr ⟨(j, y), List.mem_enum_iff_get?.mpr hj, rfl⟩⟩

/-- What the truncation step guarantees when it runs: exactly `MAX_CLAIMS`
survivors forming a sublist (original order) of the candidate list, and every
dropped candidate is no longer than any kept one. -/
theorem keepLongest_spec {filtered : List (List Char)}
    (hgt : MAX_CLAIMS < filtered.length) :
    (keepLongest filtered).length = MAX_CLAIMS ∧
    (keepLongest filtered).Sublist filtered ∧
    (∀ x ∈ keepLongest filtered, x ∈ filtered) ∧
    (∀ x ∈ keepLongest filtered, ∀ y ∈ filtered, y ∉ keepLongest filtered →
      y.length ≤ x.length) := by
  have hkl : keepLongest filtered =
      (List.insertionSort idxLe ((List.insertionSort lenGe
        (filtered.enum.map (fun p => (p.1, p.2.length)))).take MAX_CLAIMS)).map
        (fun m => filtered.getD m.1 []) := rfl
  rw [hkl]
  set meta := filtered.enum.map (fun p => (p.1, p.2.length)) with hmeta
  set sorted := List.insertionSort lenGe meta with hsortdef
  set top5 := sorted.take MAX_CLAIMS with htop5def
  set topIdx := List.insertionSort idxLe top5 with htopIdxdef
  have hperm1 : List.Perm sorted meta := List.perm_insertionSort lenGe meta
  have hlenmeta : meta.length = filtered.length := by
    rw [hmeta, List.length_map, List.enum_length]
  have hlensorted : sorted.length = filtered.length := by
    rw [hperm1.length_eq, hlenmeta]
  have hlen5 : top5.length = MAX_CLAIMS := by
    rw [htop5def, List.length_take]
    omega
  have hperm2 : List.Perm topIdx top5 := List.perm_insertionSort idxLe top5
  have hlenIdx : topIdx.length = MAX_CLAIMS := by
    rw [hperm2.length_eq, hlen5]
  have hmem_meta : ∀ m ∈ topIdx, m ∈ meta := by
    intro m hm
    have h5 : m ∈ top5 := hperm2.mem_iff.mp hm
    have hs : m ∈ sorted := (List.take_sublist _ _).subset h5
    exact hperm1.mem_iff.mp hs
  have hshape : ∀ m ∈ topIdx, m.1 < filtered.length ∧
      filtered.getD m.1 [] ∈ filtered ∧ (filtered.getD m.1 []).length = m.2 :=
    fun m hm => meta_mem_shape (hmem_meta m hm)
  have hfst : meta.map Prod.fst = List.range filtered.length := by
    rw [hmeta, List.map_map]
    exact List.enum_map_fst filtered
  have hnod_meta : (meta.map Prod.fst).Nodup := by
    rw [hfst]
    exact List.nodup_range _
  have hnod_sorted : (sorted.map Prod.fst).Nodup :=
    ((hperm1.map Prod.fst).nodup_iff).mpr hnod_meta
  have hnod_top5 : (top5.map Prod.fst).Nodup :=
    List.Nodup.sublist ((List.take_sublist _ _).map _) hnod_sorted
  have hnod_topIdx : (topIdx.map Prod.fst).Nodup :=
    ((hperm2.map Prod.fst).nodup_iff).mpr hnod_top5
  have hsortIdx : topIdx.Pairwise idxLe := List.sorted_insertionSort idxLe top5
  have hltIdx : topIdx.Pairwise (fun a b => a.1 < b.1) := by
    have hne : topIdx.Pairwise (fun a b => a.1 ≠ b.1) := List.pairwise_map.mp hnod_topIdx
    exact (hsortIdx.and hne).imp (fun h => lt_of_le_of_ne h.1 h.2)
  have hsublist : (topIdx.map (fun m => filtered.getD m.1 [])).Sublist filtered := by
    have hcomp : topIdx.map (fun m => filtered.getD m.1 []) =
        (topIdx.map Prod.fst).map (fun i => filtered.getD i []) := by
      rw [List.map_map]
      rfl
    rw [hcomp]
    apply map_getD_sublist
    · exact List.pairwise_map.mpr hltIdx
    · intro i hi
      rcases List.mem_map.mp hi with ⟨m, hm, rfl⟩
      exact (hshape m hm).1
  refine ⟨by rw [List.length_map, hlenIdx], hsublist, ?_, ?_⟩
  · intro x hx
    rcases List.mem_map.mp hx with ⟨m, hm, rfl⟩
    exact (hshape m hm).2.1
  · have hsortLen : sorted.Pairwise lenGe := List.sorted_insertionSort lenGe meta
    have hcross : ∀ a ∈ top5, ∀ b ∈ sorted.drop MAX_CLAIMS, lenGe a b := by
      have hsplit : top5 ++ sorted.drop MAX_CLAIMS = sorted := List.take_append_drop _ _
      have hpw := hsortLen
      rw [← hsplit] at hpw
      exact (List.pairwise_append.mp hpw).2.2
    intro x hx y hy hyn
    rcases List.mem_map.mp hx with ⟨m, hm, rfl⟩
    have hmtop5 : m ∈ top5 := hperm2.mem_iff.mp hm
    rcases mem_to_meta hy with ⟨j, hjget, hjmeta⟩
    have hjsorted : (j, y.length) ∈ sorted := hperm1.mem_iff.mpr hjmeta
    have hjsplit : (j, y.length) ∈ top5 ++ sorted.drop MAX_CLAIMS := by
      rw [List.take_append_drop]
      exact hjsorted
    have hgdy : filtered.getD j [] = y := by
      rw [List.getD_eq_get?, hjget]
      rfl
    rcases List.mem_append.mp hjsplit with hin | hin
    · exfalso
      apply hyn
      have hinIdx : (j, y.length) ∈ topIdx := hperm2.mem_iff.mpr hin
      have : filtered.getD j [] ∈ topIdx.map (fun m => filtered.getD m.1 []) :=
        List.mem_map.mpr ⟨(j, y.length), hinIdx, rfl⟩
      rwa [hgdy] at this
    · have hle : lenGe m (j, y.length) := hcross m hmtop5 _ hin
      have hxlen : (filtered.getD m.1 []).length = m.2 := (hshape m hm).2.2
      have : y.length ≤ m.2 := hle
      omega

/-- Candidates surviving the filter are at least 10 characters long. -/
theorem mem_filteredCandidatesL_length {t c : List Char}
    (hc : c ∈ filteredCandidatesL t) : 10 ≤ c.length := by
  simp only [filteredCandidatesL] at hc
  split_ifs at hc with h1 h2
  · simp at hc
  · simp at hc
  · simpa using (List.mem_filter.mp hc).2

/-- Size, order and selection guarantees of `splitIntoClaims` on character
lists. -/
theorem splitIntoClaimsL_bounds (t : List Char) :
    (splitIntoClaimsL t).length ≤ MAX_CLAIMS ∧
    (∀ c ∈ splitIntoClaimsL t, 10 ≤ c.length) ∧
    (splitIntoClaimsL t).Sublist (filteredCandidatesL t) ∧
    (MAX_CLAIMS < (filteredCandidatesL t).length →
      (splitIntoClaimsL t).length = MAX_CLAIMS ∧
      ∀ x ∈ splitIntoClaimsL t, ∀ y ∈ filteredCandidatesL t,
        y ∉ splitIntoClaimsL t → y.length ≤ x.length) := by
  by_cases hle : (filteredCandidatesL t).length ≤ MAX_CLAIMS
  · rw [splitIntoClaimsL, if_pos hle]
    refine ⟨hle, fun c hc => mem_filteredCandidatesL_length hc, List.Sublist.refl _, ?_⟩
    intro hgt
    omega
  · rw [splitIntoClaimsL, if_neg hle]
    have hgt : MAX_CLAIMS < (filteredCandidatesL t).length := by omega
    obtain ⟨hlen, hsub, hmem, hkeep⟩ := keepLongest_spec hgt
    refine ⟨by omega, fun c hc => mem_filteredCandidatesL_length (hmem c hc), hsub, ?_⟩
    intro hgt2
    exact ⟨hlen, hkeep⟩

/-- Packing a character list into a string preserves its length. -/
theorem length_asString (l : List Char) : l.asString.length = l.length := rfl

/-- Packing a character list into a string is injective. -/
theorem asString_inj {a b : List Char} (h : a.asString = b.asString) : a = b :=
  congrArg String.data h

/-- C5: confirmed.  For every input text `splitIntoClaims` returns at most
`MAX_CLAIMS` (5) claims, each at least 10 characters long, forming a sublist
of the ≥ 10-length candidates (so surviving claims keep their original
relative order); and when more than 5 candidates survive, exactly 5 are
returned and every dropped candidate is no longer than any kept one — the 5
longest are kept, stably by original index. -/
theorem splitIntoClaims_bounds (text : String) :
    (splitIntoClaims text).length ≤ MAX_CLAIMS ∧
    (∀ c ∈ splitIntoClaims text, 10 ≤ c.length) ∧
    (splitIntoClaims text).Sublist (filteredCandidates text) ∧
    (MAX_CLAIMS < (filteredCandidates text).length →
      (splitIntoClaims text).length = MAX_CLAIMS ∧
      ∀ x ∈ splitIntoClaims text, ∀ y ∈ filteredCandidates text,
        y ∉ splitIntoClaims text → y.length ≤ x.length) := by
  obtain ⟨h1, h2, h3, h4⟩ := splitIntoClaimsL_bounds text.data
  refine ⟨?_, ?_, ?_, ?_⟩
  · rw [splitIntoClaims, List.length_map]
    exact h1
  · intro c hc
    rcases List.mem_map.mp hc with ⟨lc, hlc, rfl⟩
    rw [length_asString]
    exact h2 lc hlc
  · exact h3.map _
  · intro hgt
    have hgt2 : MAX_CLAIMS < (filteredCandidatesL text.data).length := by
      rw [filteredCandidates, List.length_map] at hgt
      exact hgt
    obtain ⟨hlen, hkeep⟩ := h4 hgt2
    constructor
    · rw [splitIntoClaims, List.length_map]
      exact hlen
    · intro x hx y hy hyn
      rcases List.mem_map.mp hx with ⟨lx, hlx, rfl⟩
      rcases List.mem_map.mp hy with ⟨ly, hly, rfl⟩
      have hlyn : ly ∉ splitIntoClaimsL text.data := by
        intro hmem
        exact hyn (List.mem_map.mpr ⟨ly, hmem, rfl⟩)
      have hfin := hkeep lx hlx ly hly hlyn
      rw [length_asString, length_asString]
      exact hfin

set_option maxRecDepth 40000 in
/-- Witness: on a text with seven surviving candidates, exactly five claims
come back, and the dropped candidate `"Sentence six x."` is no longer than
the kept `"Sentence four is the longest of them all."`. -/
theorem splitIntoClaims_bounds_witness :
    (splitIntoClaims ("Sentence number one is here. Sentence two is longer overall. Three is the third one. Sentence four is the longest of them all. Fifth sentence here. Sentence six x. Sentence seven is quite long too.")).length = MAX_CLAIMS ∧
    ("Sentence six x." : String).length ≤
      ("Sentence four is the longest of them all." : String).length := by
  have h := (splitIntoClaims_bounds "Sentence number one is here. Sentence two is longer overall. Three is the third one. Sentence four is the longest of them all. Fifth sentence here. Sentence six x. Sentence seven is quite long too.").2.2.2 (by decide)
  exact ⟨h.1, h.2 "Sentence four is the longest of them all." (by decide)
    "Sentence six x." (by decide) (by decide)⟩
